import Mathlib

/-!
Verification of the HIRN code-breaker engine (`src/hirn.c`, main variant).

The development embeds the game-logic portion of the program: the two-pass
feedback scorer `evaluate_guess`, the guess predicates `is_guess_complete`
and `is_guess_different`, secret generation `generate_secret_code`, and the
state machine of `hirn_main` (pause/resume, reveal, reset, submit, and the
time-limit check).  Machine `uint32_t` arithmetic on tick counters is
modelled as `Nat` with explicit reduction modulo `2 ^ 32`.
-/

namespace Hirn

/-- `#define NUM_COLORS 6` -/
def NUM_COLORS : Nat := 6

/-- `#define NUM_PEGS 4` -/
def NUM_PEGS : Nat := 4

/-- `#define MAX_ATTEMPTS 20` -/
def MAX_ATTEMPTS : Nat := 20

/-- `#define MAX_TIME_MS (20 * 60 * 1000)` -/
def MAX_TIME_MS : Nat := 20 * 60 * 1000

/-- `#define COLOR_REPEAT false` -/
def COLOR_REPEAT : Bool := false

/-- Modulus of `uint32_t` arithmetic. -/
def UINT32_MOD : Nat := 2 ^ 32

/-- `uint32_t` subtraction `a - b` of tick values (wrap-around modulo `2^32`). -/
def tick_sub (a b : Nat) : Nat := (a + UINT32_MOD - b) % UINT32_MOD

/-- The `PegColor` enum is a C `int`; `COLOR_NONE = 0`, colors are `1..6`. -/
abbrev PegColor := Nat

/-- `COLOR_NONE = 0` -/
def COLOR_NONE : PegColor := 0

/-- The `FeedbackType` enum: `FEEDBACK_NONE`, `FEEDBACK_BLACK`, `FEEDBACK_WHITE`. -/
inductive FeedbackType where
  | none
  | black
  | white
deriving DecidableEq, Repr

/-- The `GameState` enum of `hirn.c`. -/
inductive GameState where
  | playing
  | paused
  | won
  | lost
  | reveal
deriving DecidableEq, Repr

/-- The `CodeBreakerState` struct.  The fixed-size history arrays
`guess_history[MAX_ATTEMPTS][NUM_PEGS]` and `feedback_history` are lists that
always keep length `MAX_ATTEMPTS`, each row of length `NUM_PEGS`; array writes
are `List.set`. -/
structure CodeBreakerState where
  state : GameState
  secret_code : List PegColor
  current_guess : List PegColor
  cursor_position : Nat
  attempts_used : Nat
  start_time : Nat
  elapsed_time : Nat
  guess_history : List (List PegColor)
  feedback_history : List (List FeedbackType)
deriving DecidableEq, Repr

/-! ## The scorer (`evaluate_guess`, first and second pass) -/

/-- The local loop state of `evaluate_guess`: the `secret_used` and
`guess_used` flag arrays, the feedback row being written (the row
`feedback_history[attempts_used]`), and `feedback_idx`. -/
structure ScoreState where
  secret_used : List Bool
  guess_used : List Bool
  feedback : List FeedbackType
  feedback_idx : Nat
deriving DecidableEq, Repr

/-- Initial scorer state: both `used` arrays `{false}`, and the feedback row
initialised to `FEEDBACK_NONE` (the "Initialize feedback to none" loop). -/
def scoreInit : ScoreState :=
  { secret_used := List.replicate NUM_PEGS false
    guess_used := List.replicate NUM_PEGS false
    feedback := List.replicate NUM_PEGS FeedbackType.none
    feedback_idx := 0 }

/-- One iteration of the first pass of `evaluate_guess`
("check for exact matches (black pegs)") at position `i`. -/
def pass1Step (guess secret : List PegColor) (st : ScoreState) (i : Nat) : ScoreState :=
  if guess.getD i 0 = secret.getD i 0 then
    { secret_used := st.secret_used.set i true
      guess_used := st.guess_used.set i true
      feedback := st.feedback.set st.feedback_idx FeedbackType.black
      feedback_idx := st.feedback_idx + 1 }
  else st

/-- One iteration of the second pass of `evaluate_guess`
("check for color matches in wrong position (white pegs)") at guess position
`i`: skip if `guess_used[i]`; otherwise scan `j` upward for the first
unconsumed secret slot of the same color (the C inner loop with `break`). -/
def pass2Step (guess secret : List PegColor) (st : ScoreState) (i : Nat) : ScoreState :=
  if st.guess_used.getD i false then st
  else
    match (List.range NUM_PEGS).find? (fun j =>
        !(st.secret_used.getD j false) && decide (guess.getD i 0 = secret.getD j 0)) with
    | some j =>
        { st with
          secret_used := st.secret_used.set j true
          feedback := st.feedback.set st.feedback_idx FeedbackType.white
          feedback_idx := st.feedback_idx + 1 }
    | none => st

/-- The feedback row produced by the two passes of `evaluate_guess` for a
guess against a secret. -/
def evaluateFeedback (guess secret : List PegColor) : List FeedbackType :=
  ((List.range NUM_PEGS).foldl (pass2Step guess secret)
    ((List.range NUM_PEGS).foldl (pass1Step guess secret) scoreInit)).feedback

/-- Number of `FEEDBACK_BLACK` pegs the scorer emits. -/
def blackCount (guess secret : List PegColor) : Nat :=
  (evaluateFeedback guess secret).count FeedbackType.black

/-- Number of `FEEDBACK_WHITE` pegs the scorer emits. -/
def whiteCount (guess secret : List PegColor) : Nat :=
  (evaluateFeedback guess secret).count FeedbackType.white

/-- The `won` check of `evaluate_guess`: every position matches exactly. -/
def wonCheck (guess secret : List PegColor) : Bool :=
  (List.range NUM_PEGS).all fun i => guess.getD i 0 == secret.getD i 0

/-! ## Guess predicates -/

/-- `is_guess_complete`: no `COLOR_NONE` slot in the current guess. -/
def is_guess_complete (st : CodeBreakerState) : Bool :=
  (List.range NUM_PEGS).all fun i => !(st.current_guess.getD i 0 == COLOR_NONE)

/-- `is_guess_different`: the current guess differs from
`guess_history[attempts_used - 1]`; the first guess is always different. -/
def is_guess_different (st : CodeBreakerState) : Bool :=
  if st.attempts_used = 0 then true
  else (List.range NUM_PEGS).any fun i =>
    !(st.current_guess.getD i 0 ==
      (st.guess_history.getD (st.attempts_used - 1) []).getD i 0)

/-! ## Engine operations (branches of the `hirn_main` event loop) -/

/-- `evaluate_guess` as a state transformer: write the feedback row and the
guess row at index `attempts_used`, increment `attempts_used`, then set
`STATE_WON` (accumulating elapsed time) on an exact match, else `STATE_LOST`
when the attempt cap is reached.  `now` is the value of `furi_get_tick()`. -/
def evaluate_guess (st : CodeBreakerState) (now : Nat) : CodeBreakerState :=
  let fb := evaluateFeedback st.current_guess st.secret_code
  let won := wonCheck st.current_guess st.secret_code
  let st1 := { st with
    feedback_history := st.feedback_history.set st.attempts_used fb
    guess_history := st.guess_history.set st.attempts_used st.current_guess
    attempts_used := st.attempts_used + 1 }
  if won then
    { st1 with
      state := GameState.won
      elapsed_time := (st1.elapsed_time + tick_sub now st1.start_time) % UINT32_MOD }
  else if MAX_ATTEMPTS ≤ st1.attempts_used then
    { st1 with
      state := GameState.lost
      elapsed_time := (st1.elapsed_time + tick_sub now st1.start_time) % UINT32_MOD }
  else st1

/-- The `submitGuess` operation: the `InputKeyOk` branch's guarded call of
`evaluate_guess` (line 516); when the precondition fails, nothing happens. -/
def submit_guess (st : CodeBreakerState) (now : Nat) : CodeBreakerState :=
  if st.state = GameState.playing ∧ is_guess_complete st ∧ is_guess_different st then
    evaluate_guess st now
  else st

/-- The reset block of the `InputKeyOk` branch in `STATE_WON`/`STATE_LOST`
(lines 527-541): back to `STATE_PLAYING`, cursor and attempts zeroed, clock
restarted, current guess cleared, and a new secret installed (the result of
`generate_secret_code`, passed in as `newSecret`).  The history arrays are
not touched. -/
def reset_game (st : CodeBreakerState) (now : Nat) (newSecret : List PegColor) :
    CodeBreakerState :=
  { st with
    state := GameState.playing
    cursor_position := 0
    attempts_used := 0
    start_time := now
    elapsed_time := 0
    current_guess := List.replicate NUM_PEGS COLOR_NONE
    secret_code := newSecret }

/-- Short `InputKeyBack` press: exit when paused (state unchanged here; the
loop stops), pause when playing (accumulating elapsed time). -/
def back_press (st : CodeBreakerState) (now : Nat) : CodeBreakerState :=
  if st.state = GameState.paused then st
  else if st.state = GameState.playing then
    { st with
      state := GameState.paused
      elapsed_time := (st.elapsed_time + tick_sub now st.start_time) % UINT32_MOD }
  else st

/-- `InputKeyOk` press: submit when playing with a complete, fresh guess;
resume from pause or reveal; reset from won/lost. -/
def ok_press (st : CodeBreakerState) (now : Nat) (newSecret : List PegColor) :
    CodeBreakerState :=
  if st.state = GameState.playing ∧ is_guess_complete st ∧ is_guess_different st then
    evaluate_guess st now
  else if st.state = GameState.paused then
    { st with state := GameState.playing, start_time := now }
  else if st.state = GameState.reveal then
    { st with state := GameState.playing, start_time := now }
  else if st.state = GameState.won ∨ st.state = GameState.lost then
    reset_game st now newSecret
  else st

/-- Long `InputKeyOk` press: reveal the secret from playing (freezing the
clock), or return to playing from reveal (restarting the clock). -/
def long_ok (st : CodeBreakerState) (now : Nat) : CodeBreakerState :=
  if st.state = GameState.playing then
    { st with
      state := GameState.reveal
      elapsed_time := (st.elapsed_time + tick_sub now st.start_time) % UINT32_MOD }
  else if st.state = GameState.reveal then
    { st with state := GameState.playing, start_time := now }
  else st

/-- `InputKeyLeft` while playing: move the cursor left, clamped at `0`. -/
def move_left (st : CodeBreakerState) : CodeBreakerState :=
  if st.state = GameState.playing ∧ 0 < st.cursor_position then
    { st with cursor_position := st.cursor_position - 1 }
  else st

/-- `InputKeyRight` while playing: move the cursor right, clamped at
`NUM_PEGS - 1`. -/
def move_right (st : CodeBreakerState) : CodeBreakerState :=
  if st.state = GameState.playing ∧ st.cursor_position < NUM_PEGS - 1 then
    { st with cursor_position := st.cursor_position + 1 }
  else st

/-- `InputKeyUp` while playing: cycle the color at the cursor upward,
wrapping past `NUM_COLORS` to `COLOR_NONE`. -/
def cycle_up (st : CodeBreakerState) : CodeBreakerState :=
  if st.state = GameState.playing then
    let c := st.current_guess.getD st.cursor_position 0 + 1
    { st with current_guess :=
        st.current_guess.set st.cursor_position (if NUM_COLORS < c then COLOR_NONE else c) }
  else st

/-- `InputKeyDown` while playing: cycle the color at the cursor downward,
wrapping below `COLOR_NONE` to `NUM_COLORS`. -/
def cycle_down (st : CodeBreakerState) : CodeBreakerState :=
  if st.state = GameState.playing then
    let c := st.current_guess.getD st.cursor_position 0
    { st with current_guess :=
        st.current_guess.set st.cursor_position (if c = COLOR_NONE then NUM_COLORS else c - 1) }
  else st

/-- The per-iteration time-limit check (lines 569-578): while playing, if
accumulated elapsed time has reached `MAX_TIME_MS`, the game is lost and the
elapsed time is clamped to `MAX_TIME_MS`. -/
def time_check (st : CodeBreakerState) (now : Nat) : CodeBreakerState :=
  if st.state = GameState.playing ∧
      MAX_TIME_MS ≤ (st.elapsed_time + tick_sub now st.start_time) % UINT32_MOD then
    { st with state := GameState.lost, elapsed_time := MAX_TIME_MS }
  else st

/-- The HUD clock of `draw_callback` (lines 337-343): live time while
playing, frozen `elapsed_time` otherwise, capped at `MAX_TIME_MS`. -/
def total_time (st : CodeBreakerState) (now : Nat) : Nat :=
  let t := if st.state = GameState.playing then
      (st.elapsed_time + tick_sub now st.start_time) % UINT32_MOD
    else st.elapsed_time
  if MAX_TIME_MS < t then MAX_TIME_MS else t

/-- The initial state built in `hirn_main` (lines 441-457): zeroed struct,
`STATE_PLAYING`, cursor/attempts `0`, clock started at `now`, guess all
`COLOR_NONE`, and the generated secret (passed in as `secret`). -/
def init_state (now : Nat) (secret : List PegColor) : CodeBreakerState :=
  { state := GameState.playing
    secret_code := secret
    current_guess := List.replicate NUM_PEGS COLOR_NONE
    cursor_position := 0
    attempts_used := 0
    start_time := now
    elapsed_time := 0
    guess_history := List.replicate MAX_ATTEMPTS (List.replicate NUM_PEGS COLOR_NONE)
    feedback_history := List.replicate MAX_ATTEMPTS (List.replicate NUM_PEGS FeedbackType.none) }

/-! ## Secret generation (`generate_secret_code`)

The C function draws `rand() % NUM_COLORS + 1` repeatedly, rejecting colors
already marked in the `used[NUM_COLORS + 1]` array.  Randomness is modelled
as a stream `rng : Nat → Nat` of successive `rand()` values, and the
unbounded `do/while` rejection loop carries explicit fuel: `none` means the
loop did not terminate within the fuel bound.  The number of colors is a
parameter so that misconfigured instantiations can be analysed; the
repository instantiates it with `NUM_COLORS`. -/

/-- One `rand() % numColors + 1` draw, `k` being the index of the `rand()`
call. -/
def rand_color (numColors : Nat) (rng : Nat → Nat) (k : Nat) : Nat :=
  rng k % numColors + 1

/-- The `do { color = rand() % NUM_COLORS + 1; } while (used[color])` loop:
returns the accepted color and the next `rand()` call index. -/
def draw_unused (numColors : Nat) (rng : Nat → Nat) (used : List Bool) :
    Nat → Nat → Option (Nat × Nat)
  | _, 0 => none
  | k, fuel + 1 =>
      let c := rand_color numColors rng k
      if used.getD c false then draw_unused numColors rng used (k + 1) fuel
      else some (c, k + 1)

/-- The `for (i = 0; i < NUM_PEGS; i++)` loop of the no-repeat branch,
threading the `used` array. -/
def gen_loop (numColors : Nat) (rng : Nat → Nat) :
    Nat → Nat → List Bool → Nat → Option (List Nat)
  | _, 0, _, _ => some []
  | k, pegs + 1, used, fuel =>
      match draw_unused numColors rng used k fuel with
      | none => none
      | some (c, k') =>
          match gen_loop numColors rng k' pegs (used.set c true) fuel with
          | none => none
          | some rest => some (c :: rest)

/-- `generate_secret_code`: with `COLOR_REPEAT` false (the configured value),
the rejection-sampling branch over `used[NUM_COLORS + 1] = {false}`. -/
def generate_secret_code (rng : Nat → Nat) (fuel : Nat) : Option (List Nat) :=
  if COLOR_REPEAT then
    some ((List.range NUM_PEGS).map fun i => rand_color NUM_COLORS rng i)
  else
    gen_loop NUM_COLORS rng 0 NUM_PEGS (List.replicate (NUM_COLORS + 1) false) fuel

/-! ## Reachable session states -/

/-- Session states reachable from engine start through the event-loop
operations, with arbitrary tick values and arbitrary generated secrets. -/
inductive Reach : CodeBreakerState → Prop where
  | init (now : Nat) (secret : List PegColor) : Reach (init_state now secret)
  | back (st : CodeBreakerState) (now : Nat) : Reach st → Reach (back_press st now)
  | ok (st : CodeBreakerState) (now : Nat) (newSecret : List PegColor) :
      Reach st → Reach (ok_press st now newSecret)
  | longok (st : CodeBreakerState) (now : Nat) : Reach st → Reach (long_ok st now)
  | left (st : CodeBreakerState) : Reach st → Reach (move_left st)
  | right (st : CodeBreakerState) : Reach st → Reach (move_right st)
  | up (st : CodeBreakerState) : Reach st → Reach (cycle_up st)
  | down (st : CodeBreakerState) : Reach st → Reach (cycle_down st)
  | tick (st : CodeBreakerState) (now : Nat) : Reach st → Reach (time_check st now)

/-! ## Clean counting model for the scorer

The faithful index-based passes above are related to structural definitions
on lists: exact matches, the colors at unmatched positions, and the greedy
first-fit pairing of the second pass. -/

/-- For each position, whether guess and secret match exactly there. -/
def matchFlags (guess secret : List PegColor) : List Bool :=
  (guess.zip secret).map fun p => p.1 == p.2

/-- Number of exact (position and color) matches. -/
def exactMatches (guess secret : List PegColor) : Nat :=
  (List.range NUM_PEGS).countP fun i => guess.getD i 0 == secret.getD i 0

/-- Colors at exactly-matching positions. -/
def matchedColors (guess secret : List PegColor) : List PegColor :=
  ((guess.zip secret).filter fun p => p.1 == p.2).map Prod.fst

/-- Guess colors at positions that do not match exactly. -/
def unmatchedG (guess secret : List PegColor) : List PegColor :=
  ((guess.zip secret).filter fun p => !(p.1 == p.2)).map Prod.fst

/-- Secret colors at positions that do not match exactly. -/
def unmatchedS (guess secret : List PegColor) : List PegColor :=
  ((guess.zip secret).filter fun p => !(p.1 == p.2)).map Prod.snd

/-- The colors of a sequence at the positions whose flag is still unset. -/
def availColors : List PegColor → List Bool → List PegColor
  | [], _ => []
  | _ :: _, [] => []
  | c :: cs, b :: bs => if b then availColors cs bs else c :: availColors cs bs

/-- Guess colors at positions `s, s+1, …, s+m-1` whose `guess_used` flag is
unset: the colors the second pass will still try to pair. -/
def segGuess (guess : List PegColor) (s m : Nat) (gu : List Bool) : List PegColor :=
  ((List.range' s m).filter fun i => !(gu.getD i false)).map fun i => guess.getD i 0

/-- Greedy first-fit pairing: walk the guess colors, consuming the first
matching secret color available. -/
def greedyWhites : List PegColor → List PegColor → Nat
  | [], _ => 0
  | g :: gs, ss => if g ∈ ss then greedyWhites gs (ss.erase g) + 1 else greedyWhites gs ss

/-! ## Derived invariants and demonstration states -/

/-- The well-formedness invariant of the scorer's loop state: the arrays have
length `NUM_PEGS`, `feedback_idx` equals the number of consumed secret slots,
and every feedback slot from `feedback_idx` on is still `FEEDBACK_NONE`. -/
def Inv (st : ScoreState) : Prop :=
  st.secret_used.length = NUM_PEGS ∧ st.guess_used.length = NUM_PEGS ∧
  st.feedback.length = NUM_PEGS ∧
  st.feedback_idx = st.secret_used.count true ∧
  ∀ k, st.feedback_idx ≤ k → st.feedback.getD k FeedbackType.none = FeedbackType.none

/-- Demonstration secret used by the concrete witnesses. -/
def demoSecret : List PegColor := [1, 2, 3, 4]

/-- A session about to submit its first, complete, fresh guess. -/
def demoReady : CodeBreakerState :=
  { init_state 0 demoSecret with current_guess := [2, 1, 3, 5] }

/-- The session right after submitting the first attempt: resubmission of the
(unchanged) current guess must be rejected. -/
def demoAfter : CodeBreakerState := submit_guess demoReady 7

/-- A finished (won) session, used to exercise the reset path. -/
def demoWon : CodeBreakerState :=
  { init_state 0 demoSecret with state := GameState.won }

/-- Bookkeeping invariant of reachable sessions: the attempt counter stays
within the cap, is strictly below it in any non-terminal phase, a lost
session lost by exhausting attempts or by the time limit, and the history
arrays keep their fixed size. -/
def SessionInv (st : CodeBreakerState) : Prop :=
  st.attempts_used ≤ MAX_ATTEMPTS ∧
  (st.state ≠ GameState.won ∧ st.state ≠ GameState.lost →
    st.attempts_used < MAX_ATTEMPTS) ∧
  (st.state = GameState.lost →
    st.attempts_used = MAX_ATTEMPTS ∨ MAX_TIME_MS ≤ st.elapsed_time) ∧
  st.guess_history.length = MAX_ATTEMPTS ∧
  st.feedback_history.length = MAX_ATTEMPTS

/-- A playing session with 19 attempts used, about to submit a losing 20th
distinct guess. -/
def demoNineteen : CodeBreakerState :=
  { init_state 0 demoSecret with attempts_used := 19, current_guess := [2, 1, 3, 5] }

/-- A playing session with 19 attempts used, about to submit a winning 20th
guess. -/
def demoWinReady : CodeBreakerState :=
  { init_state 0 demoSecret with attempts_used := 19, current_guess := [1, 2, 3, 4] }

/-! ## List helper lemmas -/

lemma getD_set_self {α : Type} (l : List α) (i : Nat) (v d : α) (h : i < l.length) :
    (l.set i v).getD i d = v := by
  simp [List.getD_eq_getElem?_getD, List.getElem?_set_eq h]

lemma getD_set_ne {α : Type} (l : List α) {i j : Nat} (v d : α) (h : i ≠ j) :
    (l.set i v).getD j d = l.getD j d := by
  simp [List.getD_eq_getElem?_getD, List.getElem?_set_ne h]

lemma count_true_set (l : List Bool) (i : Nat) (h : i < l.length)
    (hf : l.getD i false = false) : (l.set i true).count true = l.count true + 1 := by
  have hget : l[i] = false := by
    rwa [List.getD_eq_getElem?_getD, List.getElem?_eq_getElem h, Option.getD_some] at hf
  rw [List.count_set true true l i h, hget]
  simp

lemma count_true_lt_length (l : List Bool) (i : Nat) (h : i < l.length)
    (hf : l.getD i false = false) : l.count true < l.length := by
  induction l generalizing i with
  | nil => simp at h
  | cons b bs ih =>
    cases i with
    | zero =>
      simp only [List.getD_cons_zero] at hf
      subst hf
      have hle := List.count_le_length (l := bs) (a := true)
      simp [List.count_cons]
      omega
    | succ i =>
      simp only [List.getD_cons_succ] at hf
      simp only [List.length_cons, Nat.succ_lt_succ_iff] at h
      have := ih i h hf
      simp only [List.count_cons, List.length_cons]
      split <;> omega

lemma count_fb_set (l : List FeedbackType) (i : Nat) (v c : FeedbackType)
    (h : i < l.length) (hold : l.getD i FeedbackType.none = FeedbackType.none)
    (hc : c ≠ FeedbackType.none) :
    (l.set i v).count c = l.count c + if v = c then 1 else 0 := by
  have hget : l[i] = FeedbackType.none := by
    rwa [List.getD_eq_getElem?_getD, List.getElem?_eq_getElem h, Option.getD_some] at hold
  rw [List.count_set v c l i h, hget]
  have h1 : (FeedbackType.none == c) = false := by
    simp [beq_eq_false_iff_ne]
    exact fun hcc => hc hcc.symm
  rw [h1]
  simp [beq_iff_eq]

lemma availColors_length_le : ∀ (cs : List PegColor) (bs : List Bool),
    (availColors cs bs).length ≤ cs.length := by
  intro cs
  induction cs with
  | nil => intro bs; simp [availColors]
  | cons c cs ih =>
    intro bs
    cases bs with
    | nil => simp [availColors]
    | cons b bs =>
      by_cases hb : b = true
      · subst hb
        simpa [availColors] using Nat.le_succ_of_le (ih bs)
      · have hb' : b = false := by simpa using hb
        subst hb'
        simpa [availColors] using ih bs

/-! ## Specification of the inner `find?` scan of the second pass -/

lemma find_range_succ_pos {p : Nat → Bool} (n : Nat) (h : p 0 = true) :
    (List.range (n + 1)).find? p = some 0 := by
  rw [List.range_succ_eq_map]
  exact List.find?_cons_of_pos _ h

lemma find_range_succ_neg {p : Nat → Bool} (n : Nat) (h : ¬ p 0 = true) :
    (List.range (n + 1)).find? p = Option.map Nat.succ ((List.range n).find? (p ∘ Nat.succ)) := by
  rw [List.range_succ_eq_map, List.find?_cons_of_neg _ h, List.find?_map]

lemma find_some_spec (g : PegColor) :
    ∀ (S : List PegColor) (su : List Bool), su.length = S.length →
    ∀ j, (List.range S.length).find?
        (fun j => !(su.getD j false) && decide (g = S.getD j 0)) = some j →
      j < S.length ∧ su.getD j false = false ∧ g = S.getD j 0 ∧
      g ∈ availColors S su ∧
      availColors S (su.set j true) = (availColors S su).erase g := by
  intro S
  induction S with
  | nil =>
    intro su _ j hj
    simp at hj
  | cons c cs ih =>
    intro su hlen j hj
    cases su with
    | nil => simp at hlen
    | cons b bs =>
      simp only [List.length_cons] at hlen
      have hlen' : bs.length = cs.length := by omega
      rw [List.length_cons] at hj
      have hcomp :
          ((fun j => !((b :: bs).getD j false) && decide (g = (c :: cs).getD j 0)) ∘ Nat.succ)
          = fun j => !(bs.getD j false) && decide (g = cs.getD j 0) := by
        funext j
        simp [Function.comp, List.getD_cons_succ]
      by_cases hb : b = true
      · -- slot 0 already consumed: the scan continues on the tail
        rw [find_range_succ_neg, hcomp] at hj
        on_goal 2 => simp [hb]
        rcases Option.map_eq_some'.mp hj with ⟨j', hj', rfl⟩
        obtain ⟨h1, h2, h3, h4, h5⟩ := ih bs hlen' j' hj'
        subst hb
        refine ⟨by simpa using Nat.succ_lt_succ h1, by simpa [List.getD_cons_succ] using h2,
          by simpa [List.getD_cons_succ] using h3, by simpa [availColors] using h4, ?_⟩
        show availColors (c :: cs) ((true :: bs).set (j' + 1) true)
            = (availColors (c :: cs) (true :: bs)).erase g
        simp only [List.set_cons_succ]
        simpa [availColors] using h5
      · have hb' : b = false := by simpa using hb
        subst hb'
        by_cases hg : g = c
        · -- head slot is a fresh match: the scan stops at index 0
          rw [find_range_succ_pos] at hj
          on_goal 2 => simp [hg]
          cases hj
          refine ⟨by simp, by simp, by simpa using hg, ?_, ?_⟩
          · simp [availColors, hg]
          · show availColors (c :: cs) ((false :: bs).set 0 true)
                = (availColors (c :: cs) (false :: bs)).erase g
            subst hg
            simp [availColors, List.erase_cons_head]
        · -- head slot has another color: the scan continues on the tail
          rw [find_range_succ_neg, hcomp] at hj
          on_goal 2 => simp [hg]
          rcases Option.map_eq_some'.mp hj with ⟨j', hj', rfl⟩
          obtain ⟨h1, h2, h3, h4, h5⟩ := ih bs hlen' j' hj'
          refine ⟨by simpa using Nat.succ_lt_succ h1, by simpa [List.getD_cons_succ] using h2,
            by simpa [List.getD_cons_succ] using h3, by simp [availColors, h4], ?_⟩
          show availColors (c :: cs) ((false :: bs).set (j' + 1) true)
              = (availColors (c :: cs) (false :: bs)).erase g
          simp only [List.set_cons_succ]
          have herase : (c :: availColors cs bs).erase g = c :: (availColors cs bs).erase g := by
            refine List.erase_cons_tail ?_
            simp only [beq_iff_eq]
            exact fun h => hg h.symm
          simp [availColors, h5, herase]

lemma find_none_spec (g : PegColor) :
    ∀ (S : List PegColor) (su : List Bool), su.length = S.length →
    (List.range S.length).find?
        (fun j => !(su.getD j false) && decide (g = S.getD j 0)) = none →
      g ∉ availColors S su := by
  intro S
  induction S with
  | nil =>
    intro su _ _
    simp [availColors]
  | cons c cs ih =>
    intro su hlen hj
    cases su with
    | nil => simp at hlen
    | cons b bs =>
      simp only [List.length_cons] at hlen
      have hlen' : bs.length = cs.length := by omega
      rw [List.length_cons] at hj
      have hcomp :
          ((fun j => !((b :: bs).getD j false) && decide (g = (c :: cs).getD j 0)) ∘ Nat.succ)
          = fun j => !(bs.getD j false) && decide (g = cs.getD j 0) := by
        funext j
        simp [Function.comp, List.getD_cons_succ]
      by_cases hb : b = true
      · rw [find_range_succ_neg, hcomp] at hj
        on_goal 2 => simp [hb]
        have htail : (List.range cs.length).find?
            (fun j => !(bs.getD j false) && decide (g = cs.getD j 0)) = none := by
          cases hfind : (List.range cs.length).find?
              (fun j => !(bs.getD j false) && decide (g = cs.getD j 0)) with
          | none => rfl
          | some j' => rw [hfind] at hj; simp at hj
        have := ih bs hlen' htail
        subst hb
        simpa [availColors] using this
      · have hb' : b = false := by simpa using hb
        subst hb'
        by_cases hg : g = c
        · rw [find_range_succ_pos] at hj
          on_goal 2 => simp [hg]
          simp at hj
        · rw [find_range_succ_neg, hcomp] at hj
          on_goal 2 => simp [hg]
          have htail : (List.range cs.length).find?
              (fun j => !(bs.getD j false) && decide (g = cs.getD j 0)) = none := by
            cases hfind : (List.range cs.length).find?
                (fun j => !(bs.getD j false) && decide (g = cs.getD j 0)) with
            | none => rfl
            | some j' => rw [hfind] at hj; simp at hj
          have := ih bs hlen' htail
          simp [availColors, hg, this]

/-! ## Invariants of the two passes -/


lemma segGuess_succ (G : List PegColor) (s m : Nat) (gu : List Bool) :
    segGuess G s (m + 1) gu =
      if gu.getD s false then segGuess G (s + 1) m gu
      else G.getD s 0 :: segGuess G (s + 1) m gu := by
  unfold segGuess
  rw [List.range'_succ]
  by_cases h : gu.getD s false = true
  · rw [if_pos h, List.filter_cons, h]
    simp
  · have h' : gu.getD s false = false := by simpa using h
    rw [if_neg h, List.filter_cons, h']
    simp

/-- Master lemma for the second pass: folding `pass2Step` over the index
segment `[s, s+m)` preserves the invariant and `guess_used`, emits no black
pegs, and emits exactly the whites of the greedy first-fit pairing of the
still-unconsumed guess colors of the segment against the still-unconsumed
secret colors. -/
lemma pass2_master (G S : List PegColor) (hS : S.length = NUM_PEGS) :
    ∀ (m s : Nat) (st : ScoreState), Inv st →
    Inv ((List.range' s m).foldl (pass2Step G S) st) ∧
    ((List.range' s m).foldl (pass2Step G S) st).guess_used = st.guess_used ∧
    ((List.range' s m).foldl (pass2Step G S) st).feedback.count FeedbackType.black
      = st.feedback.count FeedbackType.black ∧
    ((List.range' s m).foldl (pass2Step G S) st).feedback.count FeedbackType.white
      = st.feedback.count FeedbackType.white
        + greedyWhites (segGuess G s m st.guess_used) (availColors S st.secret_used) := by
  intro m
  induction m with
  | zero =>
    intro s st hInv
    refine ⟨hInv, rfl, rfl, ?_⟩
    simp [segGuess, greedyWhites, List.range']
  | succ m ih =>
    intro s st hInv
    obtain ⟨hsu, hgu, hfb, hidx, htail⟩ := hInv
    rw [List.range'_succ, List.foldl_cons, segGuess_succ]
    by_cases hused : st.guess_used.getD s false
    · -- guess slot `s` was consumed in the first pass: the step is skipped
      rw [if_pos hused]
      have hstep : pass2Step G S st s = st := by
        unfold pass2Step
        rw [if_pos hused]
      rw [hstep]
      exact ih (s + 1) st ⟨hsu, hgu, hfb, hidx, htail⟩
    · rw [if_neg hused]
      have hused' : st.guess_used.getD s false = false := by simpa using hused
      have hlen_eq : st.secret_used.length = S.length := by rw [hsu, hS]
      cases hfind : (List.range NUM_PEGS).find? (fun j =>
          !(st.secret_used.getD j false) && decide (G.getD s 0 = S.getD j 0)) with
      | none =>
        have hstep : pass2Step G S st s = st := by
          unfold pass2Step
          rw [if_neg hused, hfind]
        have hfind' : (List.range S.length).find? (fun j =>
            !(st.secret_used.getD j false) && decide (G.getD s 0 = S.getD j 0)) = none := by
          rw [hS]; exact hfind
        have hnot : G.getD s 0 ∉ availColors S st.secret_used :=
          find_none_spec (G.getD s 0) S st.secret_used hlen_eq hfind'
        rw [hstep]
        obtain ⟨ih1, ih2, ih3, ih4⟩ := ih (s + 1) st ⟨hsu, hgu, hfb, hidx, htail⟩
        refine ⟨ih1, ih2, ih3, ?_⟩
        rw [ih4]
        have : greedyWhites (G.getD s 0 :: segGuess G (s + 1) m st.guess_used)
            (availColors S st.secret_used)
            = greedyWhites (segGuess G (s + 1) m st.guess_used)
              (availColors S st.secret_used) := by
          show (if G.getD s 0 ∈ availColors S st.secret_used then _ else _) = _
          rw [if_neg hnot]
        rw [this]
      | some j =>
        have hfind' : (List.range S.length).find? (fun j =>
            !(st.secret_used.getD j false) && decide (G.getD s 0 = S.getD j 0)) = some j := by
          rw [hS]; exact hfind
        obtain ⟨hjlt, hjfree, hjcol, hmem, herase⟩ :=
          find_some_spec (G.getD s 0) S st.secret_used hlen_eq j hfind'
        have hjlt' : j < st.secret_used.length := by omega
        have hstep : pass2Step G S st s =
            { st with
              secret_used := st.secret_used.set j true
              feedback := st.feedback.set st.feedback_idx FeedbackType.white
              feedback_idx := st.feedback_idx + 1 } := by
          unfold pass2Step
          rw [if_neg hused, hfind]
        have hidxlt : st.feedback_idx < st.feedback.length := by
          have := count_true_lt_length st.secret_used j hjlt' hjfree
          omega
        have hold : st.feedback.getD st.feedback_idx FeedbackType.none = FeedbackType.none :=
          htail _ le_rfl
        rw [hstep]
        have hInv' : Inv { st with
            secret_used := st.secret_used.set j true
            feedback := st.feedback.set st.feedback_idx FeedbackType.white
            feedback_idx := st.feedback_idx + 1 } := by
          refine ⟨by simpa using hsu, hgu, by simpa using hfb, ?_, ?_⟩
          · simpa [count_true_set st.secret_used j hjlt' hjfree] using hidx
          · intro k hk
            have hk' : st.feedback_idx + 1 ≤ k := hk
            show (st.feedback.set st.feedback_idx FeedbackType.white).getD k FeedbackType.none
              = FeedbackType.none
            rw [getD_set_ne st.feedback FeedbackType.white FeedbackType.none (by omega)]
            exact htail k (by omega)
        obtain ⟨ih1, ih2, ih3, ih4⟩ := ih (s + 1) _ hInv'
        dsimp only at ih2 ih3 ih4
        refine ⟨ih1, ?_, ?_, ?_⟩
        · exact ih2
        · rw [ih3]
          show (st.feedback.set st.feedback_idx FeedbackType.white).count FeedbackType.black
            = st.feedback.count FeedbackType.black
          rw [count_fb_set st.feedback st.feedback_idx FeedbackType.white FeedbackType.black
            hidxlt hold (by simp)]
          simp
        · rw [ih4]
          show (st.feedback.set st.feedback_idx FeedbackType.white).count FeedbackType.white
              + greedyWhites (segGuess G (s + 1) m st.guess_used)
                (availColors S (st.secret_used.set j true))
            = st.feedback.count FeedbackType.white
              + greedyWhites (G.getD s 0 :: segGuess G (s + 1) m st.guess_used)
                (availColors S st.secret_used)
          rw [count_fb_set st.feedback st.feedback_idx FeedbackType.white FeedbackType.white
            hidxlt hold (by simp), herase]
          have : greedyWhites (G.getD s 0 :: segGuess G (s + 1) m st.guess_used)
              (availColors S st.secret_used)
              = greedyWhites (segGuess G (s + 1) m st.guess_used)
                ((availColors S st.secret_used).erase (G.getD s 0)) + 1 := by
            show (if G.getD s 0 ∈ availColors S st.secret_used then _ else _) = _
            rw [if_pos hmem]
          rw [this]
          have hone : (if (FeedbackType.white : FeedbackType) = FeedbackType.white
              then 1 else 0) = 1 := by simp
          rw [hone]
          omega

/-- Master lemma for the first pass: folding `pass1Step` over the index
segment `[s, s+m)` (with all segment flags initially unset) preserves the
invariant, marks exactly the exactly-matching positions of the segment in
both `used` arrays, emits one black peg per exact match, and emits no white
pegs. -/
lemma pass1_master (G S : List PegColor) :
    ∀ (m s : Nat) (st : ScoreState), Inv st → s + m ≤ NUM_PEGS →
    (∀ i, s ≤ i → st.secret_used.getD i false = false) →
    (∀ i, s ≤ i → st.guess_used.getD i false = false) →
    Inv ((List.range' s m).foldl (pass1Step G S) st) ∧
    (∀ j, ((List.range' s m).foldl (pass1Step G S) st).secret_used.getD j false = true ↔
       (st.secret_used.getD j false = true ∨
         (s ≤ j ∧ j < s + m ∧ G.getD j 0 = S.getD j 0))) ∧
    (∀ j, ((List.range' s m).foldl (pass1Step G S) st).guess_used.getD j false = true ↔
       (st.guess_used.getD j false = true ∨
         (s ≤ j ∧ j < s + m ∧ G.getD j 0 = S.getD j 0))) ∧
    ((List.range' s m).foldl (pass1Step G S) st).feedback.count FeedbackType.black
      = st.feedback.count FeedbackType.black
        + (List.range' s m).countP (fun i => G.getD i 0 == S.getD i 0) ∧
    ((List.range' s m).foldl (pass1Step G S) st).feedback.count FeedbackType.white
      = st.feedback.count FeedbackType.white := by
  intro m
  induction m with
  | zero =>
    intro s st hInv hsm hsfree hgfree
    refine ⟨hInv, ?_, ?_, by simp [List.range'], by simp [List.range']⟩
    · intro j
      constructor
      · intro h; exact Or.inl h
      · rintro (h | ⟨h1, h2, _⟩)
        · exact h
        · omega
    · intro j
      constructor
      · intro h; exact Or.inl h
      · rintro (h | ⟨h1, h2, _⟩)
        · exact h
        · omega
  | succ m ih =>
    intro s st hInv hsm hsfree hgfree
    obtain ⟨hsu, hgu, hfb, hidx, htail⟩ := hInv
    have hslt : s < NUM_PEGS := by omega
    rw [List.range'_succ, List.foldl_cons]
    by_cases hmatch : G.getD s 0 = S.getD s 0
    · -- exact match at position `s`
      have hstep : pass1Step G S st s =
          { secret_used := (st.secret_used.set s true),
            guess_used := (st.guess_used.set s true),
            feedback := (st.feedback.set st.feedback_idx FeedbackType.black),
            feedback_idx := st.feedback_idx + 1 } := by
        unfold pass1Step
        rw [if_pos hmatch]
      have hsfree_s : st.secret_used.getD s false = false := hsfree s le_rfl
      have hgfree_s : st.guess_used.getD s false = false := hgfree s le_rfl
      have hslen : s < st.secret_used.length := by omega
      have hglen : s < st.guess_used.length := by omega
      have hidxlt : st.feedback_idx < st.feedback.length := by
        have := count_true_lt_length st.secret_used s hslen hsfree_s
        omega
      have hold : st.feedback.getD st.feedback_idx FeedbackType.none = FeedbackType.none :=
        htail _ le_rfl
      rw [hstep]
      have hInv' : Inv
          { secret_used := (st.secret_used.set s true),
            guess_used := (st.guess_used.set s true),
            feedback := (st.feedback.set st.feedback_idx FeedbackType.black),
            feedback_idx := st.feedback_idx + 1 } := by
        refine ⟨by simpa using hsu, by simpa using hgu, by simpa using hfb, ?_, ?_⟩
        · simpa [count_true_set st.secret_used s hslen hsfree_s] using hidx
        · intro k hk
          have hk' : st.feedback_idx + 1 ≤ k := hk
          show (st.feedback.set st.feedback_idx FeedbackType.black).getD k FeedbackType.none
            = FeedbackType.none
          rw [getD_set_ne st.feedback FeedbackType.black FeedbackType.none (by omega)]
          exact htail k (by omega)
      obtain ⟨ih1, ih2, ih3, ih4, ih5⟩ := ih (s + 1) _ hInv' (by omega)
        (by
          intro i hi
          show (st.secret_used.set s true).getD i false = false
          rw [getD_set_ne st.secret_used true false (by omega)]
          exact hsfree i (by omega))
        (by
          intro i hi
          show (st.guess_used.set s true).getD i false = false
          rw [getD_set_ne st.guess_used true false (by omega)]
          exact hgfree i (by omega))
      dsimp only at ih2 ih3 ih4 ih5
      refine ⟨ih1, ?_, ?_, ?_, ?_⟩
      · intro j
        rw [ih2 j]
        by_cases hjs : j = s
        · subst hjs
          rw [getD_set_self st.secret_used j true false hslen]
          constructor
          · intro _; exact Or.inr ⟨le_rfl, by omega, hmatch⟩
          · intro _; exact Or.inl rfl
        · rw [getD_set_ne st.secret_used true false (fun h => hjs h.symm)]
          constructor
          · rintro (h | ⟨h1, h2, h3⟩)
            · exact Or.inl h
            · exact Or.inr ⟨by omega, by omega, h3⟩
          · rintro (h | ⟨h1, h2, h3⟩)
            · exact Or.inl h
            · exact Or.inr ⟨by omega, by omega, h3⟩
      · intro j
        rw [ih3 j]
        by_cases hjs : j = s
        · subst hjs
          rw [getD_set_self st.guess_used j true false hglen]
          constructor
          · intro _; exact Or.inr ⟨le_rfl, by omega, hmatch⟩
          · intro _; exact Or.inl rfl
        · rw [getD_set_ne st.guess_used true false (fun h => hjs h.symm)]
          constructor
          · rintro (h | ⟨h1, h2, h3⟩)
            · exact Or.inl h
            · exact Or.inr ⟨by omega, by omega, h3⟩
          · rintro (h | ⟨h1, h2, h3⟩)
            · exact Or.inl h
            · exact Or.inr ⟨by omega, by omega, h3⟩
      · rw [ih4, List.countP_cons,
          count_fb_set st.feedback st.feedback_idx FeedbackType.black FeedbackType.black
            hidxlt hold (by simp)]
        simp [hmatch]
        rw [if_pos (show G[s]?.getD 0 = S[s]?.getD 0 by simpa using hmatch)]
        omega
      · rw [ih5, count_fb_set st.feedback st.feedback_idx FeedbackType.black FeedbackType.white
          hidxlt hold (by simp)]
        simp
    · have hstep : pass1Step G S st s = st := by
        unfold pass1Step
        rw [if_neg hmatch]
      rw [hstep]
      obtain ⟨ih1, ih2, ih3, ih4, ih5⟩ := ih (s + 1) st ⟨hsu, hgu, hfb, hidx, htail⟩ (by omega)
        (fun i hi => hsfree i (by omega)) (fun i hi => hgfree i (by omega))
      refine ⟨ih1, ?_, ?_, ?_, ih5⟩
      · intro j
        rw [ih2 j]
        constructor
        · rintro (h | ⟨h1, h2, h3⟩)
          · exact Or.inl h
          · exact Or.inr ⟨by omega, by omega, h3⟩
        · rintro (h | ⟨h1, h2, h3⟩)
          · exact Or.inl h
          · by_cases hjs : j = s
            · subst hjs; exact absurd h3 hmatch
            · exact Or.inr ⟨by omega, by omega, h3⟩
      · intro j
        rw [ih3 j]
        constructor
        · rintro (h | ⟨h1, h2, h3⟩)
          · exact Or.inl h
          · exact Or.inr ⟨by omega, by omega, h3⟩
        · rintro (h | ⟨h1, h2, h3⟩)
          · exact Or.inl h
          · by_cases hjs : j = s
            · subst hjs; exact absurd h3 hmatch
            · exact Or.inr ⟨by omega, by omega, h3⟩
      · rw [ih4, List.countP_cons]
        simp [hmatch]
        simpa using hmatch

/-! ## Counting theory of the clean model -/

lemma greedyWhites_eq_card_inter : ∀ (gs ss : List PegColor),
    greedyWhites gs ss
      = Multiset.card ((gs : Multiset PegColor) ∩ (ss : Multiset PegColor)) := by
  intro gs
  induction gs with
  | nil => intro ss; simp [greedyWhites]
  | cons g gs ih =>
    intro ss
    by_cases h : g ∈ ss
    · rw [show greedyWhites (g :: gs) ss = greedyWhites gs (ss.erase g) + 1 by
        show (if g ∈ ss then _ else _) = _
        rw [if_pos h]]
      rw [ih (ss.erase g), ← Multiset.cons_coe,
        Multiset.cons_inter_of_pos _ (by simpa using h)]
      simp [← Multiset.coe_erase]
    · rw [show greedyWhites (g :: gs) ss = greedyWhites gs ss by
        show (if g ∈ ss then _ else _) = _
        rw [if_neg h]]
      rw [ih ss, ← Multiset.cons_coe,
        Multiset.cons_inter_of_neg _ (by simpa using h)]

lemma count_guess_split (c : PegColor) : ∀ (gs ss : List PegColor),
    gs.length = ss.length →
    gs.count c = (matchedColors gs ss).count c + (unmatchedG gs ss).count c := by
  intro gs
  induction gs with
  | nil =>
    intro ss h
    simp [matchedColors, unmatchedG]
  | cons g gs ih =>
    intro ss h
    cases ss with
    | nil => simp at h
    | cons s ss =>
      simp only [List.length_cons] at h
      have hih := ih ss (by omega)
      simp only [matchedColors, unmatchedG, List.zip_cons_cons, List.filter_cons] at hih ⊢
      by_cases hm : g = s
      · simp [hm, List.count_cons]
        split_ifs <;> omega
      · have hm' : (g == s) = false := by simpa using hm
        simp [hm', List.count_cons]
        split_ifs <;> omega

lemma count_secret_split (c : PegColor) : ∀ (gs ss : List PegColor),
    gs.length = ss.length →
    ss.count c = (matchedColors gs ss).count c + (unmatchedS gs ss).count c := by
  intro gs
  induction gs with
  | nil =>
    intro ss h
    cases ss with
    | nil => simp [matchedColors, unmatchedS]
    | cons s ss => simp at h
  | cons g gs ih =>
    intro ss h
    cases ss with
    | nil => simp at h
    | cons s ss =>
      simp only [List.length_cons] at h
      have hih := ih ss (by omega)
      simp only [matchedColors, unmatchedS, List.zip_cons_cons, List.filter_cons] at hih ⊢
      by_cases hm : g = s
      · simp [hm, List.count_cons]
        split_ifs <;> omega
      · have hm' : (g == s) = false := by simpa using hm
        simp [hm', List.count_cons]
        split_ifs <;> omega

/-- The multiset intersection of a guess and a secret splits into the colors
of the exactly-matching positions plus the intersection of the colors at the
remaining positions. -/
lemma inter_decomp (gs ss : List PegColor) (h : gs.length = ss.length) :
    ((gs : Multiset PegColor) ∩ (ss : Multiset PegColor))
      = (matchedColors gs ss : Multiset PegColor)
        + ((unmatchedG gs ss : Multiset PegColor) ∩ (unmatchedS gs ss : Multiset PegColor)) := by
  rw [Multiset.ext]
  intro c
  rw [Multiset.count_inter, Multiset.count_add, Multiset.count_inter]
  simp only [Multiset.coe_count]
  have h1 := count_guess_split c gs ss h
  have h2 := count_secret_split c gs ss h
  omega

/-- Cardinality of the multiset intersection as the sum over all occurring
colors of the minimum of the two occurrence counts. -/
lemma card_inter_eq_sum (gs ss : List PegColor) :
    Multiset.card ((gs : Multiset PegColor) ∩ (ss : Multiset PegColor))
      = ∑ c ∈ (gs ++ ss).toFinset, min (gs.count c) (ss.count c) := by
  have hsub : ((gs : Multiset PegColor) ∩ (ss : Multiset PegColor)).toFinset
      ⊆ (gs ++ ss).toFinset := by
    intro c hc
    rw [Multiset.mem_toFinset, Multiset.mem_inter] at hc
    rw [List.mem_toFinset, List.mem_append]
    exact Or.inl (by simpa using hc.1)
  calc Multiset.card ((gs : Multiset PegColor) ∩ (ss : Multiset PegColor))
      = ∑ c ∈ ((gs : Multiset PegColor) ∩ (ss : Multiset PegColor)).toFinset,
          Multiset.count c ((gs : Multiset PegColor) ∩ (ss : Multiset PegColor)) :=
        (Multiset.toFinset_sum_count_eq _).symm
    _ = ∑ c ∈ ((gs : Multiset PegColor) ∩ (ss : Multiset PegColor)).toFinset,
          min (gs.count c) (ss.count c) := by
        refine Finset.sum_congr rfl fun c _ => ?_
        rw [Multiset.count_inter]
        simp [Multiset.coe_count, inf_eq_min]
    _ = ∑ c ∈ (gs ++ ss).toFinset, min (gs.count c) (ss.count c) := by
        refine Finset.sum_subset hsub fun c hc hnc => ?_
        rw [Multiset.mem_toFinset] at hnc
        by_contra hne
        apply hnc
        rw [Multiset.mem_inter]
        have h1 : 0 < gs.count c := by omega
        have h2 : 0 < ss.count c := by omega
        constructor
        · rw [← Multiset.count_pos, Multiset.coe_count]
          exact h1
        · rw [← Multiset.count_pos, Multiset.coe_count]
          exact h2

/-! ## Identification of the faithful passes with the clean model -/

lemma getD_eq_getElem {α : Type} (l : List α) (d : α) {j : Nat} (h : j < l.length) :
    l.getD j d = l[j] := by
  rw [List.getD_eq_getElem?_getD, List.getElem?_eq_getElem h, Option.getD_some]

lemma list_len4 {α : Type} (l : List α) (h : l.length = 4) :
    ∃ a b c d, l = [a, b, c, d] := by
  cases l with
  | nil => simp at h
  | cons a l =>
    cases l with
    | nil => simp at h
    | cons b l =>
      cases l with
      | nil => simp at h
      | cons c l =>
        cases l with
        | nil => simp at h
        | cons d l =>
          cases l with
          | nil => exact ⟨a, b, c, d, rfl⟩
          | cons e l => simp at h

lemma replicate_getD_false (n i : Nat) : (List.replicate n false).getD i false = false := by
  rw [List.getD_eq_getElem?_getD, List.getElem?_replicate]
  split <;> rfl

lemma Inv_scoreInit : Inv scoreInit := by
  refine ⟨by simp [scoreInit], by simp [scoreInit], by simp [scoreInit],
    by simp [scoreInit, List.count_replicate], ?_⟩
  intro k _
  show (List.replicate NUM_PEGS FeedbackType.none).getD k FeedbackType.none = FeedbackType.none
  rw [List.getD_eq_getElem?_getD, List.getElem?_replicate]
  split <;> rfl

lemma matchFlags_length (G S : List PegColor) (hG : G.length = NUM_PEGS)
    (hS : S.length = NUM_PEGS) : (matchFlags G S).length = NUM_PEGS := by
  simp [matchFlags, hG, hS]

lemma matchFlags_getElem (G S : List PegColor) (hG : G.length = NUM_PEGS)
    (hS : S.length = NUM_PEGS) {j : Nat} (hj : j < (matchFlags G S).length) :
    (matchFlags G S)[j] = (G.getD j 0 == S.getD j 0) := by
  have hj' : j < NUM_PEGS := by rw [← matchFlags_length G S hG hS]; exact hj
  have hjG : j < G.length := by omega
  have hjS : j < S.length := by omega
  unfold matchFlags
  rw [List.getElem_map, List.getElem_zip, getD_eq_getElem G 0 hjG, getD_eq_getElem S 0 hjS]

/-- The length-4 bridges between the index-based and the structural
descriptions of the pass data. -/
lemma bridges4 (g0 g1 g2 g3 s0 s1 s2 s3 : PegColor) :
    segGuess [g0, g1, g2, g3] 0 NUM_PEGS (matchFlags [g0, g1, g2, g3] [s0, s1, s2, s3])
      = unmatchedG [g0, g1, g2, g3] [s0, s1, s2, s3] ∧
    availColors [s0, s1, s2, s3] (matchFlags [g0, g1, g2, g3] [s0, s1, s2, s3])
      = unmatchedS [g0, g1, g2, g3] [s0, s1, s2, s3] ∧
    exactMatches [g0, g1, g2, g3] [s0, s1, s2, s3]
      = (matchedColors [g0, g1, g2, g3] [s0, s1, s2, s3]).length ∧
    (exactMatches [g0, g1, g2, g3] [s0, s1, s2, s3] = NUM_PEGS ↔
      ([g0, g1, g2, g3] : List PegColor) = [s0, s1, s2, s3]) ∧
    (wonCheck [g0, g1, g2, g3] [s0, s1, s2, s3] = true ↔
      ([g0, g1, g2, g3] : List PegColor) = [s0, s1, s2, s3]) := by
  have hr : List.range 4 = [0, 1, 2, 3] := rfl
  have hr' : List.range' 0 4 = [0, 1, 2, 3] := rfl
  by_cases h0 : g0 = s0 <;> by_cases h1 : g1 = s1 <;> by_cases h2 : g2 = s2 <;>
    by_cases h3 : g3 = s3 <;>
    simp [segGuess, matchFlags, unmatchedG, unmatchedS, availColors, exactMatches,
      matchedColors, wonCheck, hr, hr', h0, h1, h2, h3, NUM_PEGS]

/-- The two-pass scorer emits one black per exactly-matching position and the
whites of the greedy pairing of the colors at the remaining positions. -/
lemma scorer_counts (G S : List PegColor) (hG : G.length = NUM_PEGS)
    (hS : S.length = NUM_PEGS) :
    blackCount G S = exactMatches G S ∧
    whiteCount G S = greedyWhites (unmatchedG G S) (unmatchedS G S) := by
  obtain ⟨p1Inv, ch_su, ch_gu, hblack1, hwhite1⟩ :=
    pass1_master G S NUM_PEGS 0 scoreInit Inv_scoreInit (by omega)
      (fun i _ => replicate_getD_false NUM_PEGS i)
      (fun i _ => replicate_getD_false NUM_PEGS i)
  have hsu_eq : ((List.range' 0 NUM_PEGS).foldl (pass1Step G S) scoreInit).secret_used
      = matchFlags G S := by
    apply List.ext_getElem
    · rw [p1Inv.1, matchFlags_length G S hG hS]
    · intro j h1 h2
      rw [matchFlags_getElem G S hG hS h2, Bool.eq_iff_iff]
      constructor
      · intro hj
        have := (ch_su j).mp (by rw [getD_eq_getElem _ _ h1]; exact hj)
        rcases this with hfalse | ⟨_, _, hcol⟩
        · rw [show scoreInit.secret_used = List.replicate NUM_PEGS false from rfl,
            replicate_getD_false] at hfalse
          exact absurd hfalse (by simp)
        · simpa using hcol
      · intro hbeq
        have hcol : G.getD j 0 = S.getD j 0 := by simpa using hbeq
        have hj4 : j < NUM_PEGS := by rw [← p1Inv.1]; exact h1
        have := (ch_su j).mpr (Or.inr ⟨by omega, by omega, hcol⟩)
        rw [getD_eq_getElem _ _ h1] at this
        exact this
  have hgu_eq : ((List.range' 0 NUM_PEGS).foldl (pass1Step G S) scoreInit).guess_used
      = matchFlags G S := by
    apply List.ext_getElem
    · rw [p1Inv.2.1, matchFlags_length G S hG hS]
    · intro j h1 h2
      rw [matchFlags_getElem G S hG hS h2, Bool.eq_iff_iff]
      constructor
      · intro hj
        have := (ch_gu j).mp (by rw [getD_eq_getElem _ _ h1]; exact hj)
        rcases this with hfalse | ⟨_, _, hcol⟩
        · rw [show scoreInit.guess_used = List.replicate NUM_PEGS false from rfl,
            replicate_getD_false] at hfalse
          exact absurd hfalse (by simp)
        · simpa using hcol
      · intro hbeq
        have hcol : G.getD j 0 = S.getD j 0 := by simpa using hbeq
        have hj4 : j < NUM_PEGS := by rw [← p1Inv.2.1]; exact h1
        have := (ch_gu j).mpr (Or.inr ⟨by omega, by omega, hcol⟩)
        rw [getD_eq_getElem _ _ h1] at this
        exact this
  obtain ⟨p2Inv, hgu2, hblack2, hwhite2⟩ :=
    pass2_master G S hS NUM_PEGS 0 _ p1Inv
  have hinit_black : scoreInit.feedback.count FeedbackType.black = 0 := by
    simp [scoreInit, List.count_replicate]
  have hinit_white : scoreInit.feedback.count FeedbackType.white = 0 := by
    simp [scoreInit, List.count_replicate]
  obtain ⟨a0, a1, a2, a3, rfl⟩ := list_len4 G (by rw [hG]; rfl)
  obtain ⟨b0, b1, b2, b3, rfl⟩ := list_len4 S (by rw [hS]; rfl)
  obtain ⟨hseg, havail, _, _, _⟩ := bridges4 a0 a1 a2 a3 b0 b1 b2 b3
  constructor
  · show (evaluateFeedback [a0, a1, a2, a3] [b0, b1, b2, b3]).count FeedbackType.black = _
    unfold evaluateFeedback
    rw [List.range_eq_range', hblack2, hblack1, hinit_black]
    unfold exactMatches
    rw [List.range_eq_range']
    omega
  · show (evaluateFeedback [a0, a1, a2, a3] [b0, b1, b2, b3]).count FeedbackType.white = _
    unfold evaluateFeedback
    rw [List.range_eq_range', hwhite2, hwhite1, hinit_white, hsu_eq, hgu_eq, hseg, havail]
    omega

/-- Total feedback pegs as the cardinality of the multiset intersection. -/
lemma total_pegs_eq_card (G S : List PegColor) (hG : G.length = NUM_PEGS)
    (hS : S.length = NUM_PEGS) :
    blackCount G S + whiteCount G S
      = Multiset.card ((G : Multiset PegColor) ∩ (S : Multiset PegColor)) := by
  obtain ⟨hb, hw⟩ := scorer_counts G S hG hS
  rw [hb, hw, greedyWhites_eq_card_inter]
  have hlen : G.length = S.length := by rw [hG, hS]
  rw [inter_decomp G S hlen, Multiset.card_add, Multiset.coe_card]
  obtain ⟨a0, a1, a2, a3, rfl⟩ := list_len4 G (by rw [hG]; rfl)
  obtain ⟨b0, b1, b2, b3, rfl⟩ := list_len4 S (by rw [hS]; rfl)
  obtain ⟨_, _, hlen4, _, _⟩ := bridges4 a0 a1 a2 a3 b0 b1 b2 b3
  omega

/-- Complete field-level description of `evaluate_guess`. -/
lemma evaluate_guess_spec (st : CodeBreakerState) (now : Nat) :
    (evaluate_guess st now).attempts_used = st.attempts_used + 1 ∧
    (evaluate_guess st now).current_guess = st.current_guess ∧
    (evaluate_guess st now).secret_code = st.secret_code ∧
    (evaluate_guess st now).cursor_position = st.cursor_position ∧
    (evaluate_guess st now).guess_history
      = st.guess_history.set st.attempts_used st.current_guess ∧
    (evaluate_guess st now).feedback_history
      = st.feedback_history.set st.attempts_used
          (evaluateFeedback st.current_guess st.secret_code) ∧
    (evaluate_guess st now).state =
      (if wonCheck st.current_guess st.secret_code then GameState.won
       else if MAX_ATTEMPTS ≤ st.attempts_used + 1 then GameState.lost else st.state) ∧
    (evaluate_guess st now).elapsed_time =
      (if wonCheck st.current_guess st.secret_code ∨ MAX_ATTEMPTS ≤ st.attempts_used + 1
       then (st.elapsed_time + tick_sub now st.start_time) % UINT32_MOD
       else st.elapsed_time) ∧
    (evaluate_guess st now).start_time = st.start_time := by
  unfold evaluate_guess
  by_cases hwon : wonCheck st.current_guess st.secret_code = true
  · simp [hwon]
  · have hw' : wonCheck st.current_guess st.secret_code = false := by simpa using hwon
    by_cases hmax : MAX_ATTEMPTS ≤ st.attempts_used + 1
    · simp [hw', hmax]
    · simp [hw', hmax]

/-- With its precondition satisfied, `submit_guess` runs `evaluate_guess`. -/
lemma submit_guess_of_pre (st : CodeBreakerState) (now : Nat)
    (hst : st.state = GameState.playing) (hc : is_guess_complete st = true)
    (hd : is_guess_different st = true) :
    submit_guess st now = evaluate_guess st now := by
  unfold submit_guess
  rw [if_pos ⟨hst, hc, hd⟩]

/-- C1: for every guess `G` and secret `S` of length `P = NUM_PEGS`, the
scorer emits `black + white ≤ P` pegs and `black = P` iff `G = S`; and a
permitted `submitGuess` moves the session to `Won` exactly when the
submitted guess equals the secret position for position. -/
theorem C1_score_bound_and_win :
    (∀ G S : List PegColor, G.length = NUM_PEGS → S.length = NUM_PEGS →
      blackCount G S + whiteCount G S ≤ NUM_PEGS ∧
      (blackCount G S = NUM_PEGS ↔ G = S)) ∧
    (∀ (st : CodeBreakerState) (now : Nat), st.state = GameState.playing →
      is_guess_complete st = true → is_guess_different st = true →
      st.current_guess.length = NUM_PEGS → st.secret_code.length = NUM_PEGS →
      ((submit_guess st now).state = GameState.won ↔
        st.current_guess = st.secret_code)) := by
  constructor
  · intro G S hG hS
    constructor
    · rw [total_pegs_eq_card G S hG hS]
      calc Multiset.card ((G : Multiset PegColor) ∩ (S : Multiset PegColor))
          ≤ Multiset.card (S : Multiset PegColor) :=
            Multiset.card_le_card (Multiset.inter_le_right _ _)
        _ = NUM_PEGS := by rw [Multiset.coe_card, hS]
    · rw [(scorer_counts G S hG hS).1]
      obtain ⟨a0, a1, a2, a3, rfl⟩ := list_len4 G (by rw [hG]; rfl)
      obtain ⟨b0, b1, b2, b3, rfl⟩ := list_len4 S (by rw [hS]; rfl)
      exact (bridges4 a0 a1 a2 a3 b0 b1 b2 b3).2.2.2.1
  · intro st now hst hc hd hgl hsl
    rw [submit_guess_of_pre st now hst hc hd]
    have hspec := (evaluate_guess_spec st now).2.2.2.2.2.2.1
    rw [hspec]
    by_cases hwon : wonCheck st.current_guess st.secret_code = true
    · rw [if_pos hwon]
      obtain ⟨a0, a1, a2, a3, hGd⟩ := list_len4 st.current_guess (by rw [hgl]; rfl)
      obtain ⟨b0, b1, b2, b3, hSd⟩ := list_len4 st.secret_code (by rw [hsl]; rfl)
      rw [hGd, hSd]
      rw [hGd, hSd] at hwon
      simp only [true_iff]
      exact ((bridges4 a0 a1 a2 a3 b0 b1 b2 b3).2.2.2.2).mp hwon
    · have hw' : wonCheck st.current_guess st.secret_code = false := by simpa using hwon
      rw [if_neg (by simp [hw'])]
      obtain ⟨a0, a1, a2, a3, hGd⟩ := list_len4 st.current_guess (by rw [hgl]; rfl)
      obtain ⟨b0, b1, b2, b3, hSd⟩ := list_len4 st.secret_code (by rw [hsl]; rfl)
      constructor
      · intro hcon
        exfalso
        by_cases hmax : MAX_ATTEMPTS ≤ st.attempts_used + 1
        · rw [if_pos hmax] at hcon
          exact GameState.noConfusion hcon
        · rw [if_neg hmax, hst] at hcon
          exact GameState.noConfusion hcon
      · intro heq
        exfalso
        rw [hGd, hSd] at heq
        have := ((bridges4 a0 a1 a2 a3 b0 b1 b2 b3).2.2.2.2).mpr heq
        rw [hGd, hSd] at hw'
        rw [this] at hw'
        exact Bool.noConfusion hw'

/-- C1 witness at a concrete guess, secret, and ready session. -/
theorem C1_score_bound_and_win_witness :
    (blackCount [2, 1, 3, 5] [1, 2, 3, 4] + whiteCount [2, 1, 3, 5] [1, 2, 3, 4]
      ≤ NUM_PEGS ∧
     (blackCount [2, 1, 3, 5] [1, 2, 3, 4] = NUM_PEGS ↔
       ([2, 1, 3, 5] : List PegColor) = [1, 2, 3, 4])) ∧
    ((submit_guess demoReady 7).state = GameState.won ↔
      demoReady.current_guess = demoReady.secret_code) :=
  ⟨C1_score_bound_and_win.1 [2, 1, 3, 5] [1, 2, 3, 4] (by decide) (by decide),
   C1_score_bound_and_win.2 demoReady 7 (by decide) (by decide) (by decide)
     (by decide) (by decide)⟩

/-- C2: the scorer's total feedback equals the sum over all occurring colors
of `min(count in guess, count in secret)`; moreover the blacks are exactly
the exact matches and the whites are computed by the greedy pairing of the
positions not counted black (so no position counted black in pass one is
also counted white in pass two). -/
theorem C2_total_feedback_no_double_count :
    ∀ G S : List PegColor, G.length = NUM_PEGS → S.length = NUM_PEGS →
      blackCount G S + whiteCount G S
        = ∑ c ∈ (G ++ S).toFinset, min (G.count c) (S.count c) ∧
      blackCount G S = exactMatches G S ∧
      whiteCount G S = greedyWhites (unmatchedG G S) (unmatchedS G S) := by
  intro G S hG hS
  refine ⟨?_, scorer_counts G S hG hS⟩
  rw [total_pegs_eq_card G S hG hS, card_inter_eq_sum]

/-- C2 witness at a concrete guess and secret. -/
theorem C2_total_feedback_no_double_count_witness :
    blackCount [2, 1, 3, 5] [1, 2, 3, 4] + whiteCount [2, 1, 3, 5] [1, 2, 3, 4]
      = ∑ c ∈ (([2, 1, 3, 5] : List PegColor) ++ [1, 2, 3, 4]).toFinset,
          min (List.count c [2, 1, 3, 5]) (List.count c [1, 2, 3, 4]) ∧
    blackCount [2, 1, 3, 5] [1, 2, 3, 4] = exactMatches [2, 1, 3, 5] [1, 2, 3, 4] ∧
    whiteCount [2, 1, 3, 5] [1, 2, 3, 4]
      = greedyWhites (unmatchedG [2, 1, 3, 5] [1, 2, 3, 4])
          (unmatchedS [2, 1, 3, 5] [1, 2, 3, 4]) :=
  C2_total_feedback_no_double_count [2, 1, 3, 5] [1, 2, 3, 4] (by decide) (by decide)

/-! ## Engine claims -/

/-- C3: invoking `submitGuess` when its precondition fails (not playing, an
unset slot, or a guess identical to the previous attempt) is a silent no-op:
the entire session state is unchanged. -/
theorem C3_submit_noop_on_failed_precondition :
    ∀ (st : CodeBreakerState) (now : Nat),
      ¬(st.state = GameState.playing ∧ is_guess_complete st = true ∧
        is_guess_different st = true) →
      submit_guess st now = st := by
  intro st now h
  unfold submit_guess
  rw [if_neg h]

/-- C3 witness: resubmitting the identical guess right after a non-winning
attempt leaves the session untouched. -/
theorem C3_submit_noop_witness : submit_guess demoAfter 9 = demoAfter :=
  C3_submit_noop_on_failed_precondition demoAfter 9 (by decide)

/-- C5: the reset block never fails and, applied to any session whatsoever,
yields phase Playing, the freshly generated secret, an empty recorded
history, an all-`None` current guess, cursor `0`, and a restarted clock; the
OK press in a terminal phase runs exactly this block. -/
theorem C5_reset_always_accepted :
    ∀ (st : CodeBreakerState) (now : Nat) (newSecret : List PegColor),
      (reset_game st now newSecret).state = GameState.playing ∧
      (reset_game st now newSecret).secret_code = newSecret ∧
      (reset_game st now newSecret).current_guess
        = List.replicate NUM_PEGS COLOR_NONE ∧
      (reset_game st now newSecret).cursor_position = 0 ∧
      (reset_game st now newSecret).attempts_used = 0 ∧
      (reset_game st now newSecret).guess_history.take
        (reset_game st now newSecret).attempts_used = [] ∧
      (reset_game st now newSecret).elapsed_time = 0 ∧
      (reset_game st now newSecret).start_time = now ∧
      ((st.state = GameState.won ∨ st.state = GameState.lost) →
        ok_press st now newSecret = reset_game st now newSecret) := by
  intro st now newSecret
  refine ⟨rfl, rfl, rfl, rfl, rfl, by simp [reset_game], rfl, rfl, ?_⟩
  intro h
  unfold ok_press
  rcases h with h | h <;>
    rw [if_neg (by simp [h]), if_neg (by simp [h]), if_neg (by simp [h]),
      if_pos (by simp [h])]

/-- C5 witness: resetting a concrete won session. -/
theorem C5_reset_always_accepted_witness :
    (reset_game demoWon 5 [3, 1, 4, 2]).state = GameState.playing ∧
    ok_press demoWon 5 [3, 1, 4, 2] = reset_game demoWon 5 [3, 1, 4, 2] :=
  ⟨(C5_reset_always_accepted demoWon 5 [3, 1, 4, 2]).1,
   (C5_reset_always_accepted demoWon 5 [3, 1, 4, 2]).2.2.2.2.2.2.2.2
     (Or.inl (by decide))⟩

/-- C9: `submitGuess` never clears or modifies `currentGuess`, and leaves the
cursor and the secret untouched, whether or not it actually scores. -/
theorem C9_submit_frame :
    ∀ (st : CodeBreakerState) (now : Nat),
      (submit_guess st now).current_guess = st.current_guess ∧
      (submit_guess st now).cursor_position = st.cursor_position ∧
      (submit_guess st now).secret_code = st.secret_code := by
  intro st now
  unfold submit_guess
  split
  · exact ⟨(evaluate_guess_spec st now).2.1, (evaluate_guess_spec st now).2.2.2.1,
      (evaluate_guess_spec st now).2.2.1⟩
  · exact ⟨rfl, rfl, rfl⟩

/-- C6 counterexample: the claim says a valid `submitGuess` freezes the
elapsed time whatever the resulting phase, including Playing; but after a
valid non-winning, non-final submission the phase stays Playing and the HUD
clock keeps running (it differs between two later instants), so nothing was
frozen. -/
theorem C6_counterexample_clock_not_frozen :
    (submit_guess demoReady 5).state = GameState.playing ∧
    total_time (submit_guess demoReady 5) 10 ≠ total_time (submit_guess demoReady 5) 5 := by
  decide

/-- C6 amended: a permitted `submitGuess` runs the scorer, appends the
attempt, and increments `attemptsUsed`; it freezes the elapsed time only
when the resulting phase is Won or Lost — when the phase stays Playing both
clock fields are untouched and the clock keeps running. -/
theorem C6_submit_effects (st : CodeBreakerState) (now : Nat)
    (hst : st.state = GameState.playing) (hc : is_guess_complete st = true)
    (hd : is_guess_different st = true) :
    (submit_guess st now).attempts_used = st.attempts_used + 1 ∧
    (submit_guess st now).guess_history
      = st.guess_history.set st.attempts_used st.current_guess ∧
    (submit_guess st now).feedback_history
      = st.feedback_history.set st.attempts_used
          (evaluateFeedback st.current_guess st.secret_code) ∧
    (((submit_guess st now).state = GameState.won ∨
        (submit_guess st now).state = GameState.lost) →
      (submit_guess st now).elapsed_time
        = (st.elapsed_time + tick_sub now st.start_time) % UINT32_MOD) ∧
    ((submit_guess st now).state = GameState.playing →
      (submit_guess st now).elapsed_time = st.elapsed_time ∧
      (submit_guess st now).start_time = st.start_time) := by
  rw [submit_guess_of_pre st now hst hc hd]
  obtain ⟨h1, _, _, _, h5, h6, h7, h8, h9⟩ := evaluate_guess_spec st now
  refine ⟨h1, h5, h6, ?_, ?_⟩
  · intro hwl
    rw [h8]
    by_cases hwon : wonCheck st.current_guess st.secret_code = true
    · rw [if_pos (Or.inl hwon)]
    · by_cases hmax : MAX_ATTEMPTS ≤ st.attempts_used + 1
      · rw [if_pos (Or.inr hmax)]
      · exfalso
        have hw' : wonCheck st.current_guess st.secret_code = false := by simpa using hwon
        rw [h7, if_neg (by simp [hw']), if_neg hmax, hst] at hwl
        rcases hwl with h | h <;> exact GameState.noConfusion h
  · intro hpl
    by_cases hwon : wonCheck st.current_guess st.secret_code = true
    · rw [h7, if_pos hwon] at hpl
      exact GameState.noConfusion hpl
    · have hw' : wonCheck st.current_guess st.secret_code = false := by simpa using hwon
      by_cases hmax : MAX_ATTEMPTS ≤ st.attempts_used + 1
      · rw [h7, if_neg (by simp [hw']), if_pos hmax] at hpl
        exact GameState.noConfusion hpl
      · constructor
        · rw [h8, if_neg (by simp [hw', hmax])]
        · exact h9

/-- C6 amended witness: a concrete first submission that keeps playing. -/
theorem C6_submit_effects_witness :
    (submit_guess demoReady 5).attempts_used = demoReady.attempts_used + 1 ∧
    ((submit_guess demoReady 5).state = GameState.playing →
      (submit_guess demoReady 5).elapsed_time = demoReady.elapsed_time ∧
      (submit_guess demoReady 5).start_time = demoReady.start_time) :=
  ⟨(C6_submit_effects demoReady 5 (by decide) (by decide) (by decide)).1,
   (C6_submit_effects demoReady 5 (by decide) (by decide) (by decide)).2.2.2.2⟩

lemma tick_sub_exact {a b : Nat} (hba : b ≤ a) (hlt : a - b < UINT32_MOD) :
    tick_sub a b = a - b := by
  unfold tick_sub
  have h : a + UINT32_MOD - b = (a - b) + UINT32_MOD := by omega
  rw [h, Nat.add_mod_right]
  exact Nat.mod_eq_of_lt hlt

/-- C8: elapsed time accrues only while Playing and is frozen elsewhere:
pausing at `t1`, resuming at `t2`, and re-pausing at `t3` accumulates
exactly `(t1 - start) + (t3 - t2)`, excluding the paused interval (tick
values are `uint32_t`, hence the bound `t3 < 2^32`). -/
theorem C8_pause_resume_elapsed (st : CodeBreakerState) (start t1 t2 t3 : Nat)
    (hst : st.state = GameState.playing) (hstart : st.start_time = start)
    (hel : st.elapsed_time = 0) (h01 : start ≤ t1) (h12 : t1 ≤ t2) (h23 : t2 ≤ t3)
    (h3 : t3 < UINT32_MOD) :
    (back_press (ok_press (back_press st t1) t2 []) t3).elapsed_time
      = (t1 - start) + (t3 - t2) ∧
    (back_press (ok_press (back_press st t1) t2 []) t3).state = GameState.paused := by
  have e1 : back_press st t1
      = { st with state := GameState.paused, elapsed_time := t1 - start } := by
    unfold back_press
    rw [if_neg (by simp [hst]), if_pos hst, hstart, hel,
      tick_sub_exact h01 (by omega)]
    have h : (0 + (t1 - start)) % UINT32_MOD = t1 - start := by
      rw [Nat.zero_add]
      exact Nat.mod_eq_of_lt (by omega)
    rw [h]
  have e2 : ok_press { st with state := GameState.paused, elapsed_time := t1 - start } t2 []
      = { st with
          state := GameState.playing,
          elapsed_time := t1 - start,
          start_time := t2 } := by
    unfold ok_press
    rw [if_neg (by simp), if_pos rfl]
  have e3 : back_press
      { st with
        state := GameState.playing,
        elapsed_time := t1 - start,
        start_time := t2 } t3
      = { st with
          state := GameState.paused,
          elapsed_time := (t1 - start) + (t3 - t2),
          start_time := t2 } := by
    unfold back_press
    rw [if_neg (by simp), if_pos rfl]
    show ({ st with
        state := GameState.paused,
        elapsed_time := ((t1 - start) + tick_sub t3 t2) % UINT32_MOD,
        start_time := t2 } : CodeBreakerState) = _
    rw [tick_sub_exact h23 (by omega)]
    have h : ((t1 - start) + (t3 - t2)) % UINT32_MOD = (t1 - start) + (t3 - t2) :=
      Nat.mod_eq_of_lt (by omega)
    rw [h]
  rw [e1, e2, e3]
  exact ⟨rfl, rfl⟩

/-- C8 witness at concrete ticks 1, 2, 3. -/
theorem C8_pause_resume_elapsed_witness :
    (back_press (ok_press (back_press demoReady 1) 2 []) 3).elapsed_time
      = (1 - 0) + (3 - 2) ∧
    (back_press (ok_press (back_press demoReady 1) 2 []) 3).state = GameState.paused :=
  C8_pause_resume_elapsed demoReady 0 1 2 3 (by decide) (by decide) (by decide)
    (by decide) (by decide) (by decide) (by decide)


lemma reach_inv : ∀ st, Reach st → SessionInv st := by
  intro st h
  induction h with
  | init now secret =>
    refine ⟨by simp [init_state, MAX_ATTEMPTS], ?_, ?_, by simp [init_state], by simp [init_state]⟩
    · intro _
      simp [init_state, MAX_ATTEMPTS]
    · intro hc
      exact absurd hc (by simp [init_state])
  | back st now _ ih =>
    unfold back_press
    split_ifs with h1 h2
    · exact ih
    · obtain ⟨i1, i2, i3, i4, i5⟩ := ih
      exact ⟨i1, fun _ => i2 (by simp [h2]), fun hc => absurd hc (by simp), i4, i5⟩
    · exact ih
  | ok st now newSecret _ ih =>
    obtain ⟨i1, i2, i3, i4, i5⟩ := ih
    unfold ok_press
    split_ifs with h1 h2 h3 h4
    · obtain ⟨hpl, _, _⟩ := h1
      obtain ⟨a1, _, _, _, a5, a6, a7, a8, _⟩ := evaluate_guess_spec st now
      have hlt : st.attempts_used < MAX_ATTEMPTS := i2 (by simp [hpl])
      refine ⟨by rw [a1]; omega, ?_, ?_, by rw [a5]; simp [i4], by rw [a6]; simp [i5]⟩
      · intro hne
        rw [a1]
        rw [a7] at hne
        by_cases hwon : wonCheck st.current_guess st.secret_code = true
        · rw [if_pos hwon] at hne
          exact absurd rfl hne.1
        · have hw' : wonCheck st.current_guess st.secret_code = false := by simpa using hwon
          rw [if_neg (by simp [hw'])] at hne
          by_cases hmax : MAX_ATTEMPTS ≤ st.attempts_used + 1
          · rw [if_pos hmax] at hne
            exact absurd rfl hne.2
          · omega
      · intro hlost
        rw [a1]
        rw [a7] at hlost
        by_cases hwon : wonCheck st.current_guess st.secret_code = true
        · rw [if_pos hwon] at hlost
          exact GameState.noConfusion hlost
        · have hw' : wonCheck st.current_guess st.secret_code = false := by simpa using hwon
          rw [if_neg (by simp [hw'])] at hlost
          by_cases hmax : MAX_ATTEMPTS ≤ st.attempts_used + 1
          · left
            omega
          · rw [if_neg hmax, hpl] at hlost
            exact GameState.noConfusion hlost
    · exact ⟨i1, fun _ => i2 (by simp [h2]), fun hc => absurd hc (by simp), i4, i5⟩
    · exact ⟨i1, fun _ => i2 (by simp [h3]), fun hc => absurd hc (by simp), i4, i5⟩
    · exact ⟨by simp [reset_game, MAX_ATTEMPTS], fun _ => by simp [reset_game, MAX_ATTEMPTS],
        fun hc => absurd hc (by simp [reset_game]), i4, i5⟩
    · exact ⟨i1, i2, i3, i4, i5⟩
  | longok st now _ ih =>
    obtain ⟨i1, i2, i3, i4, i5⟩ := ih
    unfold long_ok
    split_ifs with h1 h2
    · exact ⟨i1, fun _ => i2 (by simp [h1]), fun hc => absurd hc (by simp), i4, i5⟩
    · exact ⟨i1, fun _ => i2 (by simp [h2]), fun hc => absurd hc (by simp), i4, i5⟩
    · exact ⟨i1, i2, i3, i4, i5⟩
  | left st _ ih =>
    obtain ⟨i1, i2, i3, i4, i5⟩ := ih
    unfold move_left
    split_ifs with h1
    · exact ⟨i1, fun _ => i2 (by simp [h1.1]), fun hc => absurd hc (by simp [h1.1]), i4, i5⟩
    · exact ⟨i1, i2, i3, i4, i5⟩
  | right st _ ih =>
    obtain ⟨i1, i2, i3, i4, i5⟩ := ih
    unfold move_right
    split_ifs with h1
    · exact ⟨i1, fun _ => i2 (by simp [h1.1]), fun hc => absurd hc (by simp [h1.1]), i4, i5⟩
    · exact ⟨i1, i2, i3, i4, i5⟩
  | up st _ ih =>
    obtain ⟨i1, i2, i3, i4, i5⟩ := ih
    unfold cycle_up
    split_ifs with h1
    · exact ⟨i1, fun _ => i2 (by simp [h1]), fun hc => absurd hc (by simp [h1]), i4, i5⟩
    · exact ⟨i1, i2, i3, i4, i5⟩
  | down st _ ih =>
    obtain ⟨i1, i2, i3, i4, i5⟩ := ih
    unfold cycle_down
    split_ifs with h1
    · exact ⟨i1, fun _ => i2 (by simp [h1]), fun hc => absurd hc (by simp [h1]), i4, i5⟩
    · exact ⟨i1, i2, i3, i4, i5⟩
  | tick st now _ ih =>
    obtain ⟨i1, i2, i3, i4, i5⟩ := ih
    unfold time_check
    split_ifs with h1
    · exact ⟨i1, fun hne => absurd rfl hne.2, fun _ => Or.inr le_rfl, i4, i5⟩
    · exact ⟨i1, i2, i3, i4, i5⟩

/-- C4: a reachable Lost session lost by the attempt cap or by the time
limit; a session that exhausted the cap is terminal; the 20th distinct
non-matching submission sets Lost on that very call, a 20th exact match sets
Won instead, and a tick while Playing at or past the limit sets Lost without
any pending submission. -/
theorem C4_lost_iff_cap_or_timeout :
    (∀ st, Reach st → st.state = GameState.lost →
      st.attempts_used = MAX_ATTEMPTS ∨ MAX_TIME_MS ≤ st.elapsed_time) ∧
    (∀ st, Reach st → st.attempts_used = MAX_ATTEMPTS →
      st.state = GameState.won ∨ st.state = GameState.lost) ∧
    (∀ (st : CodeBreakerState) (now : Nat),
      st.state = GameState.playing → is_guess_complete st = true →
      is_guess_different st = true →
      st.current_guess.length = NUM_PEGS → st.secret_code.length = NUM_PEGS →
      st.attempts_used + 1 = MAX_ATTEMPTS →
      st.current_guess ≠ st.secret_code →
      (submit_guess st now).state = GameState.lost) ∧
    (∀ (st : CodeBreakerState) (now : Nat),
      st.state = GameState.playing → is_guess_complete st = true →
      is_guess_different st = true →
      st.current_guess.length = NUM_PEGS → st.secret_code.length = NUM_PEGS →
      st.current_guess = st.secret_code →
      (submit_guess st now).state = GameState.won) ∧
    (∀ (st : CodeBreakerState) (now : Nat),
      st.state = GameState.playing →
      MAX_TIME_MS ≤ (st.elapsed_time + tick_sub now st.start_time) % UINT32_MOD →
      (time_check st now).state = GameState.lost ∧
      (time_check st now).elapsed_time = MAX_TIME_MS) := by
  refine ⟨?_, ?_, ?_, ?_, ?_⟩
  · intro st hr hl
    exact (reach_inv st hr).2.2.1 hl
  · intro st hr hcap
    by_contra hcon
    push_neg at hcon
    have := (reach_inv st hr).2.1 ⟨hcon.1, hcon.2⟩
    omega
  · intro st now hpl hc hd hgl hsl hcap hne
    rw [submit_guess_of_pre st now hpl hc hd]
    rw [(evaluate_guess_spec st now).2.2.2.2.2.2.1]
    have hwon : wonCheck st.current_guess st.secret_code = false := by
      obtain ⟨a0, a1, a2, a3, hGd⟩ := list_len4 st.current_guess (by rw [hgl]; rfl)
      obtain ⟨b0, b1, b2, b3, hSd⟩ := list_len4 st.secret_code (by rw [hsl]; rfl)
      rw [hGd, hSd] at hne ⊢
      by_contra hcon
      have htrue : wonCheck [a0, a1, a2, a3] [b0, b1, b2, b3] = true := by
        simpa using hcon
      exact hne (((bridges4 a0 a1 a2 a3 b0 b1 b2 b3).2.2.2.2).mp htrue)
    rw [if_neg (by simp [hwon]), if_pos (by omega)]
  · intro st now hpl hc hd hgl hsl heq
    rw [submit_guess_of_pre st now hpl hc hd]
    rw [(evaluate_guess_spec st now).2.2.2.2.2.2.1]
    have hwon : wonCheck st.current_guess st.secret_code = true := by
      obtain ⟨a0, a1, a2, a3, hGd⟩ := list_len4 st.current_guess (by rw [hgl]; rfl)
      obtain ⟨b0, b1, b2, b3, hSd⟩ := list_len4 st.secret_code (by rw [hsl]; rfl)
      rw [hGd, hSd] at heq ⊢
      exact ((bridges4 a0 a1 a2 a3 b0 b1 b2 b3).2.2.2.2).mpr heq
    rw [if_pos hwon]
  · intro st now hpl hle
    unfold time_check
    rw [if_pos ⟨hpl, hle⟩]
    exact ⟨rfl, rfl⟩

/-- C4 witness: a timed-out session, a losing 20th submission, and a winning
20th submission, at concrete inputs. -/
theorem C4_lost_iff_cap_or_timeout_witness :
    ((time_check (init_state 0 demoSecret) MAX_TIME_MS).attempts_used = MAX_ATTEMPTS ∨
      MAX_TIME_MS ≤ (time_check (init_state 0 demoSecret) MAX_TIME_MS).elapsed_time) ∧
    (submit_guess demoNineteen 4).state = GameState.lost ∧
    (submit_guess demoWinReady 4).state = GameState.won ∧
    (time_check (init_state 0 demoSecret) MAX_TIME_MS).state = GameState.lost :=
  ⟨C4_lost_iff_cap_or_timeout.1 _
      (Reach.tick _ MAX_TIME_MS (Reach.init 0 demoSecret)) (by decide),
   C4_lost_iff_cap_or_timeout.2.2.1 demoNineteen 4 (by decide) (by decide) (by decide)
      (by decide) (by decide) (by decide) (by decide),
   C4_lost_iff_cap_or_timeout.2.2.2.1 demoWinReady 4 (by decide) (by decide) (by decide)
      (by decide) (by decide) (by decide),
   (C4_lost_iff_cap_or_timeout.2.2.2.2 (init_state 0 demoSecret) MAX_TIME_MS
      (by decide) (by decide)).1⟩

/-- C10: in every reachable session the attempt counter equals the length of
the recorded history prefix and stays within the cap; while Playing it is
strictly below the cap, so the history writes at index `attempts_used` are
in bounds; and a submission in a terminal phase is rejected outright. -/
theorem C10_attempts_in_bounds :
    (∀ st, Reach st →
      st.attempts_used ≤ MAX_ATTEMPTS ∧
      (st.guess_history.take st.attempts_used).length = st.attempts_used ∧
      st.guess_history.length = MAX_ATTEMPTS ∧
      st.feedback_history.length = MAX_ATTEMPTS ∧
      (st.state = GameState.playing →
        st.attempts_used < st.guess_history.length ∧
        st.attempts_used < st.feedback_history.length)) ∧
    (∀ (st : CodeBreakerState) (now : Nat),
      st.state = GameState.won ∨ st.state = GameState.lost →
      submit_guess st now = st) := by
  constructor
  · intro st hr
    obtain ⟨i1, i2, i3, i4, i5⟩ := reach_inv st hr
    refine ⟨i1, ?_, i4, i5, ?_⟩
    · rw [List.length_take, i4]
      omega
    · intro hpl
      have := i2 (by simp [hpl])
      rw [i4, i5]
      omega
  · intro st now h
    unfold submit_guess
    rcases h with h | h <;> rw [if_neg (by simp [h])]

/-- C10 witness: the freshly initialised session and a rejected submission
in a won session. -/
theorem C10_attempts_in_bounds_witness :
    (init_state 0 demoSecret).attempts_used ≤ MAX_ATTEMPTS ∧
    submit_guess demoWon 3 = demoWon :=
  ⟨(C10_attempts_in_bounds.1 (init_state 0 demoSecret) (Reach.init 0 demoSecret)).1,
   C10_attempts_in_bounds.2 demoWon 3 (Or.inl (by decide))⟩

/-- Any color accepted by the rejection loop is in `1..numColors` and was
unused. -/
lemma draw_unused_spec (numColors : Nat) (rng : Nat → Nat) (hpos : 0 < numColors) :
    ∀ (fuel k : Nat) (used : List Bool) (c k' : Nat),
      draw_unused numColors rng used k fuel = some (c, k') →
      used.getD c false = false ∧ 1 ≤ c ∧ c ≤ numColors := by
  intro fuel
  induction fuel with
  | zero =>
    intro k used c k' h
    simp [draw_unused] at h
  | succ fuel ih =>
    intro k used c k' h
    unfold draw_unused at h
    by_cases hu : used.getD (rand_color numColors rng k) false = true
    · rw [if_pos hu] at h
      exact ih (k + 1) used c k' h
    · rw [if_neg hu] at h
      simp only [Option.some.injEq, Prod.mk.injEq] at h
      obtain ⟨rfl, rfl⟩ := h
      refine ⟨by simpa using hu, ?_, ?_⟩
      · unfold rand_color
        omega
      · unfold rand_color
        have := Nat.mod_lt (rng k) hpos
        omega

/-- Any code produced by the generation loop has one entry per peg, pairwise
distinct entries, every entry in `1..numColors` and previously unused. -/
lemma gen_loop_spec (numColors : Nat) (rng : Nat → Nat) (hpos : 0 < numColors) :
    ∀ (pegs fuel k : Nat) (used : List Bool), used.length = numColors + 1 →
    ∀ code : List Nat,
      gen_loop numColors rng k pegs used fuel = some code →
      code.length = pegs ∧ code.Nodup ∧
      ∀ c ∈ code, 1 ≤ c ∧ c ≤ numColors ∧ used.getD c false = false := by
  intro pegs
  induction pegs with
  | zero =>
    intro fuel k used hul code h
    simp [gen_loop] at h
    subst h
    simp
  | succ pegs ih =>
    intro fuel k used hul code h
    unfold gen_loop at h
    cases hdraw : draw_unused numColors rng used k fuel with
    | none =>
      rw [hdraw] at h
      simp at h
    | some ck =>
      obtain ⟨c0, k0⟩ := ck
      rw [hdraw] at h
      dsimp only at h
      cases hrest : gen_loop numColors rng k0 pegs (used.set c0 true) fuel with
      | none =>
        rw [hrest] at h
        simp at h
      | some rest =>
        rw [hrest] at h
        dsimp only at h
        simp only [Option.some.injEq] at h
        subst h
        obtain ⟨hfree, h1c, hcn⟩ := draw_unused_spec numColors rng hpos fuel k used c0 k0 hdraw
        have hc0lt : c0 < used.length := by omega
        obtain ⟨hlen, hnd, hmem⟩ :=
          ih fuel k0 (used.set c0 true) (by simpa using hul) rest hrest
        refine ⟨by simp [hlen], ?_, ?_⟩
        · rw [List.nodup_cons]
          refine ⟨?_, hnd⟩
          intro hc0
          have hcontra := (hmem c0 hc0).2.2
          rw [getD_set_self used c0 true false hc0lt] at hcontra
          exact Bool.noConfusion hcontra
        · intro c hc
          rcases List.mem_cons.mp hc with rfl | hc'
          · exact ⟨h1c, hcn, hfree⟩
          · obtain ⟨hm1, hm2, hm3⟩ := hmem c hc'
            refine ⟨hm1, hm2, ?_⟩
            by_cases hc0c : c0 = c
            · subst hc0c
              rw [getD_set_self used c0 true false hc0lt] at hm3
              exact Bool.noConfusion hm3
            · rwa [getD_set_ne used true false hc0c] at hm3

/-- C7: every successfully generated secret has `NUM_PEGS` pairwise-distinct
colors in `1..NUM_COLORS` and no `COLOR_NONE` entry; the repository's
configuration has `N = NUM_COLORS ≥ NUM_PEGS = P`; and for any
misconfiguration with `1 ≤ N < P` the rejection-sampling construction can
never complete (it returns `none` for every fuel bound), so it is never
silently tolerated. -/
theorem C7_secret_generation :
    (∀ (rng : Nat → Nat) (fuel : Nat) (code : List Nat),
      generate_secret_code rng fuel = some code →
      code.length = NUM_PEGS ∧ code.Nodup ∧
      ∀ c ∈ code, 1 ≤ c ∧ c ≤ NUM_COLORS ∧ c ≠ COLOR_NONE) ∧
    NUM_PEGS ≤ NUM_COLORS ∧
    (∀ (numColors pegs : Nat), 0 < numColors → numColors < pegs →
      ∀ (rng : Nat → Nat) (fuel k : Nat),
        gen_loop numColors rng k pegs (List.replicate (numColors + 1) false) fuel
          = none) := by
  refine ⟨?_, by decide, ?_⟩
  · intro rng fuel code h
    unfold generate_secret_code at h
    rw [if_neg (by simp [COLOR_REPEAT])] at h
    obtain ⟨hlen, hnd, hmem⟩ :=
      gen_loop_spec NUM_COLORS rng (by decide) NUM_PEGS fuel 0
        (List.replicate (NUM_COLORS + 1) false) (by simp) code h
    refine ⟨hlen, hnd, ?_⟩
    intro c hc
    obtain ⟨h1, h2, _⟩ := hmem c hc
    exact ⟨h1, h2, by unfold COLOR_NONE; omega⟩
  · intro numColors pegs hpos hlt rng fuel k
    cases hgen : gen_loop numColors rng k pegs (List.replicate (numColors + 1) false) fuel with
    | none => rfl
    | some code =>
      exfalso
      obtain ⟨hlen, hnd, hmem⟩ :=
        gen_loop_spec numColors rng hpos pegs fuel k
          (List.replicate (numColors + 1) false) (by simp) code hgen
      have hsub : code.toFinset ⊆ Finset.Icc 1 numColors := by
        intro c hc
        rw [List.mem_toFinset] at hc
        obtain ⟨h1, h2, _⟩ := hmem c hc
        rw [Finset.mem_Icc]
        exact ⟨h1, h2⟩
      have hcard := Finset.card_le_card hsub
      rw [List.toFinset_card_of_nodup hnd, Nat.card_Icc, hlen] at hcard
      omega

/-- C7 witness: a concrete random stream generating a valid secret. -/
theorem C7_secret_generation_witness :
    generate_secret_code (fun k => k) 8 = some [1, 2, 3, 4] ∧
    ([1, 2, 3, 4] : List Nat).Nodup ∧
    gen_loop 2 (fun k => k) 0 3 (List.replicate 3 false) 99 = none :=
  ⟨by decide,
   (C7_secret_generation.1 (fun k => k) 8 [1, 2, 3, 4] (by decide)).2.1,
   C7_secret_generation.2.2 2 3 (by decide) (by decide) (fun k => k) 99 0⟩

/-! ## Sanity checks of the embedding (spec §8 scenarios) -/

example : blackCount [2, 1, 3, 5] [1, 2, 3, 4] = 1 ∧
    whiteCount [2, 1, 3, 5] [1, 2, 3, 4] = 2 := by decide

example : blackCount [1, 2, 3, 4] [1, 2, 3, 4] = 4 ∧
    whiteCount [1, 2, 3, 4] [1, 2, 3, 4] = 0 := by decide

example : evaluateFeedback [6, 6, 6, 6] [1, 2, 3, 4] =
    [FeedbackType.none, FeedbackType.none, FeedbackType.none, FeedbackType.none] := by decide

end Hirn
